import Mathlib

/-!
Verification development for the site end-to-end test harness
(`scripts/check-site.ts`) and its Jest setup polyfills.

JavaScript strings are embedded as Lean `String` (a structure holding a
`List Char`); the string-manipulating pieces of the harness are translated
to explicit `List Char` functions mirroring the JavaScript semantics:
`split` on a separator character, first-occurrence `String.prototype.replace`
with a plain-string pattern, lodash `uniq` (first occurrence kept), and the
anchored suffix-stripping regular expression used for path normalization.
Effectful browser/server steps are embedded as environments recording the
outcome (success value or thrown error) of each awaited call.
-/

set_option maxHeartbeats 1000000

namespace CheckSite

/-- JavaScript `s.split(sep)` on a single-character separator, on the
underlying character list.  `splitL sep l` is never empty. -/
def splitL (sep : Char) : List Char → List (List Char)
  | [] => [[]]
  | c :: cs =>
    if c = sep then [] :: splitL sep cs
    else
      match splitL sep cs with
      | [] => [[c]]
      | p :: ps => (c :: p) :: ps

/-- JavaScript first-occurrence `s.replace(pat, rep)` (plain-string pattern)
on character lists.  The leftmost occurrence of `pat` is replaced by `rep`;
if `pat` does not occur, the list is unchanged. -/
def replaceFirstL (pat rep : List Char) : List Char → List Char
  | [] => if pat.isPrefixOf [] then rep ++ List.drop pat.length [] else []
  | c :: cs =>
    if pat.isPrefixOf (c :: cs) then rep ++ List.drop pat.length (c :: cs)
    else c :: replaceFirstL pat rep cs

/-- JavaScript `haystack.includes(needle)` / Jest `toMatch` with a plain
string: substring containment. -/
def containsStr (s pat : String) : Bool :=
  decide (pat.data <:+: s.data)

/-- lodash `uniq`: keep the first occurrence of each element. -/
def jsUniq : List String → List String
  | [] => []
  | x :: xs => x :: jsUniq (xs.filter (fun y => !(y == x)))
termination_by l => l.length
decreasing_by
  simp only [List.length_cons]
  exact Nat.lt_succ_of_le (List.length_filter_le _ _)

/-- The backslash-to-forward-slash character fix applied by
`filePath.replace(/\\/g, '/')`. -/
def slashFix (c : Char) : Char := if c = '\\' then '/' else c

/-- Case-insensitive anchored suffix strip: if `pat` (given lower-case) is a
suffix of the lower-cased input, remove that many trailing characters,
otherwise report no match.  This is how each optional trailing group of the
normalization regex `/([/\\]index)?(\.\$tab-design)?((\.zh-cn)|(\.en-us))?\.md$/i`
consumes the end of the path. -/
def stripSuffixCI (pat s : List Char) : Option (List Char) :=
  if pat <:+ s.map Char.toLower then some (s.take (s.length - pat.length))
  else none

/-- Strip the suffix if present, otherwise keep the input (an optional
regex group). -/
def stripOpt (pat : List Char) (s : List Char) : List Char :=
  match stripSuffixCI pat s with
  | some r => r
  | none => s

/-- The `((\.zh-cn)|(\.en-us))?` group: at most one locale suffix is
removed. -/
def stripLocale (s : List Char) : List Char :=
  match stripSuffixCI ".zh-cn".data s with
  | some r => r
  | none => stripOpt ".en-us".data s

/-- The path normalization applied to every glob result in the `components`
inventory: replace all backslashes by forward slashes, then apply
`replace(/([/\\]index)?(\.\$tab-design)?((\.zh-cn)|(\.en-us))?\.md$/i, '')`.
The regex is anchored at the end and the leftmost (longest) match is taken,
which is equivalent to greedily stripping `.md`, then an optional locale
suffix, then an optional `.$tab-design` suffix, then an optional `/index`
segment, all case-insensitively; a path not ending in `.md` is unchanged. -/
def normalizeL (p : List Char) : List Char :=
  match stripSuffixCI ".md".data (p.map slashFix) with
  | none => p.map slashFix
  | some q1 => stripOpt "/index".data (stripOpt ".$tab-design".data (stripLocale q1))

/-- String-level wrapper for the page-identifier normalization. -/
def normalizeComponentPath (s : String) : String :=
  String.mk (normalizeL s.data)

/-- The component-discovery glob `components/!(overview)/*.md` with
`dot: false`: exactly three `/`-separated segments, the first literally
`components`, the second any non-hidden segment other than `overview`, the
third a non-hidden file name ending in `.md` (case-sensitively). -/
def matchesComponentGlob (p : String) : Bool :=
  match splitL '/' p.data with
  | [c, d, f] =>
    (c == "components".data) && !(d == "overview".data) &&
      (match d with | [] => false | x :: _ => !(x == '.')) &&
      (match f with | [] => false | x :: _ => !(x == '.')) &&
      ".md".data.isSuffixOf f
  | _ => false

/-- The `components` inventory built from the glob results: normalize every
path, deduplicate with `uniq`, and drop identifiers containing `_util`. -/
def componentsOf (globResults : List String) : List String :=
  (jsUniq (globResults.map normalizeComponentPath)).filter
    (fun c => !(containsStr c "_util"))

/-- `handleComponentName`: split on `/`, take the last part, lower-case it,
then `.replace('-cn', '').replace('-', '')` (each replacing only the first
occurrence). -/
def handleComponentName (name : String) : String :=
  let parts := splitL '/' name.data
  let componentName := parts.getLast?.getD []
  String.mk (replaceFirstL "-".data []
    (replaceFirstL "-cn".data [] (componentName.map Char.toLower)))

/-- The specification's reading of the component-name derivation: last path
segment, lower-cased, with the locale marker `-cn` stripped and all internal
hyphenation removed. -/
def specHandleComponentName (name : String) : String :=
  let parts := splitL '/' name.data
  let componentName := parts.getLast?.getD []
  let lc := componentName.map Char.toLower
  String.mk ((stripOpt "-cn".data lc).filter (fun ch => !(ch == '-')))

/-- One `render(path)` call's environment: the outcome of each awaited
external step.  `goto` is `page.goto(url, ...)` (a thrown error, or a
possibly-null response whose `status()` is recorded); the fixed 3000 ms
settle delay (`setTimeout`) never rejects and carries no data;
`waitSelector` is `page.waitForSelector('.markdown table', ...)`;
`content` is `page.content()`; `fetchResult` is the fallback
`fetch(url)` combined with `resp.text()`, yielding a status and a body. -/
structure RenderEnv where
  goto : Except String (Option Nat)
  waitSelector : Except String Unit
  content : Except String String
  fetchResult : Except String (Nat × String)

/-- The `try` block of `render`: navigate, settle, wait for the selector
inside its own `try`/`catch` whose outcome is discarded either way, then
capture the page HTML; on success the status is `response?.status() || 0`. -/
def primaryResult (env : RenderEnv) : Except String (Nat × String) :=
  match env.goto with
  | .error e => .error e
  | .ok response =>
    match env.waitSelector with
    | .ok _ =>
      match env.content with
      | .error e => .error e
      | .ok html => .ok (response.getD 0, html)
    | .error _ =>
      match env.content with
      | .error e => .error e
      | .ok html => .ok (response.getD 0, html)

/-- `render(path)`: run the primary browser strategy; if it throws, fall
back to a plain fetch of the same URL, parsing its raw body with the same
`load`; if the fallback also throws, the error propagates.  The HTML
parser (`cheerio.load`) is an external collaborator, passed in as a total
function into an abstract document type. -/
def render {Doc : Type} (load : String → Doc) (env : RenderEnv) :
    Except String (Nat × Doc) :=
  match primaryResult env with
  | .ok r => .ok (r.1, load r.2)
  | .error _ =>
    match env.fetchResult with
    | .ok (st, html) => .ok (st, load html)
    | .error e => .error e

/-- The two home-page scenarios' check, as a function of the rendered
status and the extracted `title` text:
`expect(status).toBe(200)`, then
`if (title && title.includes('Ant Design')) expect(title).toMatch(/Ant Design/)`. -/
def homeTitleCheck (status : Nat) (title : String) : Bool :=
  (status == 200) &&
    (if title ≠ "" && containsStr title "Ant Design"
     then containsStr title "Ant Design"
     else true)

/-- The overview/resources scenarios' check, as a function of the rendered
status, the extracted `h1` text, and the locale-appropriate expected
phrase: `expect(status).toBe(200)`, then
`if (h1Text) expect(h1Text).toMatch(expected)`. -/
def headingCheck (status : Nat) (h1Text expected : String) : Bool :=
  (status == 200) && (if h1Text ≠ "" then containsStr h1Text expected else true)

/-- The check of the `Basic Pages en` scenario (path `/`). -/
def basicPagesEnScenario (status : Nat) (title : String) : Bool :=
  homeTitleCheck status title

/-- The check of the `Basic Pages zh` scenario (path `/index-cn`). -/
def basicPagesZhScenario (status : Nat) (title : String) : Bool :=
  homeTitleCheck status title

/-- The check of the `Overview en` scenario (path `/components/overview`). -/
def overviewEnScenario (status : Nat) (h1Text : String) : Bool :=
  headingCheck status h1Text "Overview"

/-- The check of the `Overview zh` scenario (path `/components/overview-cn`). -/
def overviewZhScenario (status : Nat) (h1Text : String) : Bool :=
  headingCheck status h1Text "组件总览"

/-- The check of the `Resource en` scenario (path `/docs/resources`). -/
def resourceEnScenario (status : Nat) (h1Text : String) : Bool :=
  headingCheck status h1Text "Resources"

/-- The check of the `Resource zh` scenario (path `/docs/resources-cn`). -/
def resourceZhScenario (status : Nat) (h1Text : String) : Bool :=
  headingCheck status h1Text "资源"

/-- The specification's reading of the home-page text check: the assertion
is guarded only by non-emptiness of the title. -/
def specHomeTitleCheck (status : Nat) (title : String) : Bool :=
  (status == 200) &&
    (if title ≠ "" then containsStr title "Ant Design" else true)

/-- The per-component scenario generation loop: for every inventory entry
whose `/`-separated segment count is below 3, register a `zh` scenario
rendering the `-cn` variant and an `en` scenario rendering the base
variant; deeper entries register nothing.  Each scenario is embedded as
its title paired with the identifier passed to `expectComponent`. -/
def componentScenarios (comps : List String) : List (String × String) :=
  comps.flatMap fun c =>
    if (splitL '/' c.data).length < 3 then
      [("Component " ++ c ++ " zh Page", c ++ "-cn"),
       ("Component " ++ c ++ " en Page", c)]
    else []

/-- The teardown environment: whether the browser was launched, whether
`browser.close()` would succeed, whether the server variable is set, and
whether `server.close()` would succeed. -/
structure TeardownEnv where
  browserLaunched : Bool
  browserCloseOk : Bool
  serverStarted : Bool
  serverCloseOk : Bool
deriving DecidableEq

/-- What the teardown released. -/
structure TeardownResult where
  browserClosed : Bool
  serverClosed : Bool
deriving DecidableEq

/-- The `afterAll` hook: `if (browser) { await browser.close(); }` then
`server?.close()`.  Returns what was released together with whether the
hook threw; a thrown `browser.close()` aborts the hook before the server
close is reached. -/
def afterAllRun (env : TeardownEnv) : TeardownResult × Bool :=
  if env.browserLaunched then
    if env.browserCloseOk then
      if env.serverStarted then
        if env.serverCloseOk then (⟨true, true⟩, false) else (⟨true, false⟩, true)
      else (⟨true, false⟩, false)
    else (⟨false, false⟩, true)
  else
    if env.serverStarted then
      if env.serverCloseOk then (⟨false, true⟩, false) else (⟨false, false⟩, true)
    else (⟨false, false⟩, false)

end CheckSite

namespace TestSetup

/-- A constructor argument of the `MockFile` polyfill: either a JavaScript
string or a binary buffer, of which only the `byteLength` is relevant to the
size computation. -/
inductive FileBit where
  | str (s : String)
  | buf (byteLength : Nat)
deriving DecidableEq

/-- The byte contribution of one bit: UTF-8 encoded length for strings
(`new TextEncoder().encode(bit).length`), `byteLength` for buffers. -/
def bitSize : FileBit → Nat
  | .str s => s.utf8ByteSize
  | .buf n => n

/-- The `MockFile` polyfill object.  (`lastModified`, a wall-clock default,
is not modelled.) -/
structure MockFile where
  bits : List FileBit
  name : String
  type : String
  size : Nat
deriving DecidableEq

/-- The `MockFile` constructor: stores the bits, file name and options type
(defaulting to the empty string), and computes `size` with the `reduce`
over the bits. -/
def mkMockFile (bits : List FileBit) (filename : String) (otype : Option String) :
    MockFile :=
  { bits := bits
    name := filename
    type := otype.getD ""
    size := bits.foldl
      (fun acc b =>
        match b with
        | .str s => acc + s.utf8ByteSize
        | .buf n => acc + n) 0 }

/-- `Array.prototype.join` stringifies each element; a string bit is itself,
an `ArrayBuffer` stringifies to `[object ArrayBuffer]`. -/
def fileBitToString : FileBit → String
  | .str s => s
  | .buf _ => "[object ArrayBuffer]"

/-- `MockFile.text()`: `this.bits.join('')`. -/
def fileText (f : MockFile) : String :=
  String.join (f.bits.map fileBitToString)

/-- The `MockFormData` polyfill's backing `Map`, embedded as an
insertion-ordered association list (JavaScript `Map` iteration order). -/
def FormDataMap := List (String × List String)

/-- JavaScript `Map.prototype.get`. -/
def mapGet (k : String) : List (String × List String) → Option (List String)
  | [] => none
  | (k', v) :: rest => if k' = k then some v else mapGet k rest

/-- JavaScript `Map.prototype.set`: overwrite in place if the key exists
(keeping its position), otherwise append at the end. -/
def mapSet (k : String) (v : List String) :
    List (String × List String) → List (String × List String)
  | [] => [(k, v)]
  | (k', v') :: rest =>
    if k' = k then (k, v) :: rest else (k', v') :: mapSet k v rest

/-- `MockFormData.set(name, value)`: `this._data.set(name, [value])`. -/
def fdSet (name value : String) (fd : List (String × List String)) :
    List (String × List String) :=
  mapSet name [value] fd

/-- `MockFormData.append(name, value)`: create an empty slot if absent, then
push the value onto the stored array. -/
def fdAppend (name value : String) (fd : List (String × List String)) :
    List (String × List String) :=
  mapSet name ((mapGet name fd).getD [] ++ [value]) fd

/-- `MockFormData.getAll(name)`: `this._data.get(name) || []`. -/
def fdGetAll (fd : List (String × List String)) (name : String) : List String :=
  (mapGet name fd).getD []

/-- `MockFormData.get(name)`: first stored value, `null` when the name is
absent (`values ? values[0] : null`; an empty stored array, which never
arises, is also embedded as `none`). -/
def fdGet (fd : List (String × List String)) (name : String) : Option String :=
  match mapGet name fd with
  | none => none
  | some vs => vs.head?

end TestSetup

namespace CheckSite

/-- Claim C1: if the primary browser-based strategy of `render` throws and
the fallback plain fetch of the same URL succeeds, the call returns the
fallback's status code together with the document parsed from the
fallback's raw HTML body — the same result a primary success with that
status and that HTML would produce (fallback transparency). -/
theorem render_fallback_transparency {Doc : Type} (load : String → Doc)
    (env : RenderEnv) (e : String) (s : Nat) (h : String)
    (hp : primaryResult env = Except.error e)
    (hf : env.fetchResult = Except.ok (s, h)) :
    render load env = Except.ok (s, load h) ∧
    render load env =
      render load (RenderEnv.mk (Except.ok (some s)) (Except.ok ())
        (Except.ok h) env.fetchResult) := by
  have h1 : render load env = Except.ok (s, load h) := by simp [render, hp, hf]
  exact ⟨h1, h1.trans rfl⟩

/-- Witness for C1 at a concrete environment: navigation throws, the
fallback fetch succeeds with status 200. -/
theorem render_fallback_transparency_witness :
    render (fun s => s)
      (RenderEnv.mk (Except.error "nav timeout") (Except.ok ())
        (Except.error "nav timeout") (Except.ok (200, "<html/>"))) =
      Except.ok (200, "<html/>") ∧
    render (fun s => s)
      (RenderEnv.mk (Except.error "nav timeout") (Except.ok ())
        (Except.error "nav timeout") (Except.ok (200, "<html/>"))) =
      render (fun s => s)
        (RenderEnv.mk (Except.ok (some 200)) (Except.ok ())
          (Except.ok "<html/>") (Except.ok (200, "<html/>"))) :=
  render_fallback_transparency (fun s => s) _ "nav timeout" 200 "<html/>" rfl rfl

/-- Claim C2: when navigation (and the settle delay, which never rejects)
succeeds and the page content capture succeeds, a failure of the bounded
`.markdown table` selector wait neither triggers the fallback fetch nor
fails the call: the call returns the navigation's status with the captured
content, exactly as it would had the selector wait succeeded. -/
theorem render_selector_wait_swallowed {Doc : Type} (load : String → Doc)
    (env : RenderEnv) (st : Option Nat) (html : String) (e : String)
    (hg : env.goto = Except.ok st)
    (hc : env.content = Except.ok html)
    (hw : env.waitSelector = Except.error e) :
    render load env = Except.ok (st.getD 0, load html) ∧
    render load env =
      render load (RenderEnv.mk env.goto (Except.ok ()) env.content
        env.fetchResult) := by
  constructor
  · simp [render, primaryResult, hg, hc, hw]
  · simp [render, primaryResult, hg, hc, hw]

/-- Witness for C2 at a concrete environment: the selector wait times out
and the fallback fetch would even fail, yet the call succeeds with the
navigation's status. -/
theorem render_selector_wait_swallowed_witness :
    render (fun s => s)
      (RenderEnv.mk (Except.ok (some 200)) (Except.error "selector timeout")
        (Except.ok "<h1>x</h1>") (Except.error "offline")) =
      Except.ok (200, "<h1>x</h1>") ∧
    render (fun s => s)
      (RenderEnv.mk (Except.ok (some 200)) (Except.error "selector timeout")
        (Except.ok "<h1>x</h1>") (Except.error "offline")) =
      render (fun s => s)
        (RenderEnv.mk (Except.ok (some 200)) (Except.ok ())
          (Except.ok "<h1>x</h1>") (Except.error "offline")) :=
  render_selector_wait_swallowed (fun s => s) _ (some 200) "<h1>x</h1>"
    "selector timeout" rfl rfl rfl

/-- `splitL` never returns the empty list. -/
theorem splitL_ne_nil (sep : Char) : ∀ l : List Char, splitL sep l ≠ []
  | [] => by simp [splitL]
  | c :: cs => by
    unfold splitL
    split
    · simp
    · split <;> simp

/-- Splitting a list free of the separator yields the singleton chunk. -/
theorem splitL_no_sep (sep : Char) (l : List Char) (h : sep ∉ l) :
    splitL sep l = [l] := by
  induction l with
  | nil => rfl
  | cons c cs ih =>
    simp only [List.mem_cons, not_or] at h
    unfold splitL
    rw [if_neg (fun e => h.1 e.symm), ih h.2]

/-- A list containing the separator splits into at least two chunks. -/
theorem splitL_length_two (sep : Char) (t : List Char) :
    ∀ p : List Char, 2 ≤ (splitL sep (p ++ sep :: t)).length := by
  intro p
  induction p with
  | nil =>
    show 2 ≤ (splitL sep (sep :: t)).length
    unfold splitL
    rw [if_pos rfl]
    simp only [List.length_cons]
    have := List.length_pos.mpr (splitL_ne_nil sep t)
    omega
  | cons c p ih =>
    show 2 ≤ (splitL sep (c :: (p ++ sep :: t))).length
    unfold splitL
    by_cases hc : c = sep
    · rw [if_pos hc]
      simp only [List.length_cons]
      omega
    · rw [if_neg hc]
      cases hs : splitL sep (p ++ sep :: t) with
      | nil => exact absurd hs (splitL_ne_nil sep _)
      | cons x xs =>
        rw [hs] at ih
        simp only [List.length_cons] at ih ⊢
        omega

/-- Step equation of `splitL` at a separator. -/
theorem splitL_cons_sep (sep : Char) (cs : List Char) :
    splitL sep (sep :: cs) = [] :: splitL sep cs := by
  conv_lhs => unfold splitL
  rw [if_pos rfl]

/-- Step equation of `splitL` at a non-separator, given the tail's split. -/
theorem splitL_cons_ne (sep c : Char) (cs x : List Char)
    (xs : List (List Char)) (h : ¬ c = sep) (hs : splitL sep cs = x :: xs) :
    splitL sep (c :: cs) = (c :: x) :: xs := by
  conv_lhs => unfold splitL
  rw [if_neg h, hs]

/-- Every split is some chunk consed onto the rest. -/
theorem splitL_exists_cons (sep : Char) (l : List Char) :
    ∃ x xs, splitL sep l = x :: xs := by
  cases hs : splitL sep l with
  | nil => exact absurd hs (splitL_ne_nil sep l)
  | cons x xs => exact ⟨x, xs, rfl⟩

/-- The last chunk of a split is unaffected by anything before the last
separator. -/
theorem splitL_getLast?_append (sep : Char) (t : List Char) :
    ∀ p : List Char,
      (splitL sep (p ++ sep :: t)).getLast? = (splitL sep t).getLast? := by
  intro p
  induction p with
  | nil =>
    rw [List.nil_append, splitL_cons_sep]
    obtain ⟨x, xs, hx⟩ := splitL_exists_cons sep t
    rw [hx, List.getLast?_cons_cons]
  | cons c p ih =>
    rw [List.cons_append]
    by_cases hc : c = sep
    · subst hc
      rw [splitL_cons_sep]
      obtain ⟨x, xs, hx⟩ := splitL_exists_cons c (p ++ c :: t)
      rw [hx, List.getLast?_cons_cons, ← hx, ih]
    · obtain ⟨x, xs, hx⟩ := splitL_exists_cons sep (p ++ sep :: t)
      rw [splitL_cons_ne sep c _ x xs hc hx]
      have h2 := splitL_length_two sep t p
      rw [hx] at h2 ih
      cases xs with
      | nil => simp at h2
      | cons y ys =>
        rw [List.getLast?_cons_cons] at ih
        rw [List.getLast?_cons_cons]
        exact ih

/-- `isPrefixOf` is reflexive. -/
theorem isPrefixOf_self : ∀ l : List Char, l.isPrefixOf l = true
  | [] => rfl
  | c :: cs => by simp [List.isPrefixOf, isPrefixOf_self cs]

/-- First-occurrence replace of a hyphen-initial pattern leaves a
hyphen-free list unchanged. -/
theorem replaceFirstL_no_hyphen (p' rep : List Char) :
    ∀ s : List Char, '-' ∉ s → replaceFirstL ('-' :: p') rep s = s := by
  intro s
  induction s with
  | nil => intro _; rfl
  | cons c cs ih =>
    intro h
    simp only [List.mem_cons, not_or] at h
    have hne : ('-' == c) = false := beq_eq_false_iff_ne.mpr h.1
    have hp : ('-' :: p').isPrefixOf (c :: cs) = false := by
      simp [List.isPrefixOf, hne]
    simp [replaceFirstL, hp, ih h.2]

/-- First-occurrence replace of a hyphen-initial pattern appended after a
hyphen-free list replaces exactly that trailing occurrence. -/
theorem replaceFirstL_suffix (p' rep : List Char) :
    ∀ s : List Char, '-' ∉ s →
      replaceFirstL ('-' :: p') rep (s ++ '-' :: p') = s ++ rep := by
  intro s
  induction s with
  | nil =>
    intro _
    simp only [List.nil_append]
    simp [replaceFirstL, isPrefixOf_self, List.drop_length]
  | cons c cs ih =>
    intro h
    simp only [List.mem_cons, not_or] at h
    have hne : ('-' == c) = false := beq_eq_false_iff_ne.mpr h.1
    have hp : ('-' :: p').isPrefixOf (c :: (cs ++ '-' :: p')) = false := by
      simp [List.isPrefixOf, hne]
    simp only [List.cons_append]
    simp [replaceFirstL, hp, ih h.2]

/-- Counterexample to C3 as stated: on `components/a-b-c` the code removes
only the first remaining hyphen, yielding `ab-c`, while the claimed
all-hyphenation-stripping derivation yields `abc`. -/
theorem handleComponentName_counterexample :
    handleComponentName "components/a-b-c" = "ab-c" ∧
    specHandleComponentName "components/a-b-c" = "abc" ∧
    handleComponentName "components/a-b-c" ≠
      specHandleComponentName "components/a-b-c" := by
  decide

/-- Claim C3 (amended): for a page identifier whose last `/`-separated
segment contains no slash and lower-cases to a hyphen-free string,
`handleComponentName` returns that segment lower-cased, with a trailing
`-cn` locale marker (the first `-cn` occurrence, which is the only one)
removed; in particular `components/button-cn` and `components/Button`
both yield `button`.  In general the code removes only the FIRST `-cn`
occurrence and then the FIRST remaining hyphen, not all internal
hyphenation. -/
theorem handleComponentName_amended (pre s : List Char)
    (hs : '/' ∉ s) (hh : '-' ∉ s.map Char.toLower) :
    handleComponentName (String.mk (pre ++ '/' :: (s ++ "-cn".data))) =
      String.mk (s.map Char.toLower) ∧
    handleComponentName (String.mk (pre ++ '/' :: s)) =
      String.mk (s.map Char.toLower) := by
  constructor
  · have hsep : '/' ∉ s ++ ['-', 'c', 'n'] := by
      intro hmem
      rcases List.mem_append.mp hmem with h1 | h2
      · exact hs h1
      · exact absurd h2 (by decide)
    have hlast : (splitL '/' (pre ++ '/' :: (s ++ ['-', 'c', 'n']))).getLast? =
        some (s ++ ['-', 'c', 'n']) := by
      rw [splitL_getLast?_append, splitL_no_sep _ _ hsep]
      rfl
    simp only [handleComponentName, hlast, Option.getD_some, List.map_append]
    rw [show (['-', 'c', 'n'] : List Char).map Char.toLower = '-' :: ['c', 'n']
      from by decide]
    rw [replaceFirstL_suffix ['c', 'n'] [] (s.map Char.toLower) hh]
    rw [List.append_nil]
    rw [replaceFirstL_no_hyphen [] [] (s.map Char.toLower) hh]
  · have hlast : (splitL '/' (pre ++ '/' :: s)).getLast? = some s := by
      rw [splitL_getLast?_append, splitL_no_sep _ _ hs]
      rfl
    simp only [handleComponentName, hlast, Option.getD_some]
    rw [replaceFirstL_no_hyphen ['c', 'n'] [] (s.map Char.toLower) hh]
    rw [replaceFirstL_no_hyphen [] [] (s.map Char.toLower) hh]

/-- Witness for C3 (amended): exactly the claim's two examples,
`components/button-cn` and `components/Button`, both yielding `button`. -/
theorem handleComponentName_amended_witness :
    handleComponentName
        (String.mk ("components".data ++ '/' :: ("button".data ++ "-cn".data))) =
      String.mk ("button".data.map Char.toLower) ∧
    handleComponentName (String.mk ("components".data ++ '/' :: "Button".data)) =
      String.mk ("Button".data.map Char.toLower) :=
  ⟨(handleComponentName_amended "components".data "button".data
      (by decide) (by decide)).1,
   (handleComponentName_amended "components".data "Button".data
      (by decide) (by decide)).2⟩

/-- Suffixes of a common list are suffix-ordered by length. -/
theorem suffix_of_suffix_length_le {l₁ l₂ l₃ : List Char}
    (h1 : l₁ <:+ l₃) (h2 : l₂ <:+ l₃) (hl : l₁.length ≤ l₂.length) :
    l₁ <:+ l₂ := by
  rw [← List.reverse_prefix] at h1 h2 ⊢
  exact List.prefix_of_prefix_length_le h1 h2 (by simpa using hl)

/-- Positive case of the case-insensitive suffix strip: a suffix whose
lower-casing is the pattern is removed exactly. -/
theorem stripSuffixCI_append (pat b e : List Char)
    (he : e.map Char.toLower = pat) :
    stripSuffixCI pat (b ++ e) = some b := by
  unfold stripSuffixCI
  have hsuf : pat <:+ (b ++ e).map Char.toLower := by
    rw [List.map_append, ← he]
    exact List.suffix_append _ _
  rw [if_pos hsuf]
  have hlen : pat.length = e.length := by
    rw [← he, List.length_map]
  rw [List.length_append, hlen, Nat.add_sub_cancel]
  rw [List.take_left]

/-- Negative case of the case-insensitive suffix strip: if some tail of the
lower-cased input, no longer than the pattern, is not itself a suffix of
the pattern, the pattern cannot match. -/
theorem stripSuffixCI_eq_none (pat s e : List Char)
    (hsuf : e <:+ s.map Char.toLower) (hlen : e.length ≤ pat.length)
    (hne : ¬ e <:+ pat) :
    stripSuffixCI pat s = none := by
  unfold stripSuffixCI
  exact if_neg (fun hp => hne (suffix_of_suffix_length_le hsuf hp hlen))

/-- Specialized negative case for an appended literal tail that lower-cases
to itself. -/
theorem stripSuffixCI_append_none (pat b e : List Char)
    (hel : e.map Char.toLower = e) (hlen : e.length ≤ pat.length)
    (hne : ¬ e <:+ pat) :
    stripSuffixCI pat (b ++ e) = none := by
  apply stripSuffixCI_eq_none pat _ e _ hlen hne
  rw [List.map_append, hel]
  exact List.suffix_append _ _

/-- `stripOpt` when the suffix is absent. -/
theorem stripOpt_none (pat s : List Char)
    (h : stripSuffixCI pat s = none) : stripOpt pat s = s := by
  unfold stripOpt
  rw [h]

/-- `stripOpt` when the suffix is present. -/
theorem stripOpt_some (pat b e : List Char)
    (he : e.map Char.toLower = pat) : stripOpt pat (b ++ e) = b := by
  unfold stripOpt
  rw [stripSuffixCI_append pat b e he]

/-- `stripLocale` when neither locale suffix is present. -/
theorem stripLocale_of_none (s : List Char)
    (hzh : stripSuffixCI ".zh-cn".data s = none)
    (hen : stripSuffixCI ".en-us".data s = none) :
    stripLocale s = s := by
  unfold stripLocale
  rw [hzh]
  exact stripOpt_none _ _ hen

/-- `stripLocale` removes a trailing `.zh-cn`. -/
theorem stripLocale_zh (b : List Char) :
    stripLocale (b ++ ".zh-cn".data) = b := by
  unfold stripLocale
  rw [stripSuffixCI_append _ b _ (by decide)]

/-- `stripLocale` removes a trailing `.en-us`. -/
theorem stripLocale_en (b : List Char) :
    stripLocale (b ++ ".en-us".data) = b := by
  unfold stripLocale
  rw [stripSuffixCI_append_none _ b _ (by decide) (by decide) (by decide)]
  exact stripOpt_some _ b _ (by decide)

/-- Appending backslash-free lists stays backslash-free. -/
theorem mem_append_no_backslash (b e : List Char)
    (hb : ∀ c ∈ b, c ≠ '\\') (he : ∀ c ∈ e, c ≠ '\\') :
    ∀ c ∈ b ++ e, c ≠ '\\' :=
  fun c hc => (List.mem_append.mp hc).elim (hb c) (he c)

/-- Mapping `slashFix` over a backslash-free list is the identity. -/
theorem map_slashFix_id (l : List Char) (h : ∀ c ∈ l, c ≠ '\\') :
    l.map slashFix = l := by
  induction l with
  | nil => rfl
  | cons c cs ih =>
    simp only [List.mem_cons, forall_eq_or_imp] at h
    simp [slashFix, h.1, ih h.2]

/-- `slashFix` never produces a backslash. -/
theorem map_slashFix_no_backslash (l : List Char) :
    ∀ c ∈ l.map slashFix, c ≠ '\\' := by
  intro c hc
  obtain ⟨a, _, rfl⟩ := List.mem_map.mp hc
  unfold slashFix
  by_cases h : a = '\\' <;> simp [h]

/-- `normalizeL` once the `.md` suffix strip of the slash-fixed path is
known. -/
theorem normalizeL_of_md (p b : List Char)
    (h : stripSuffixCI ".md".data (p.map slashFix) = some b) :
    normalizeL p =
      stripOpt "/index".data (stripOpt ".$tab-design".data (stripLocale b)) := by
  unfold normalizeL
  rw [h]

/-- `normalizeL` of a path not ending in `.md` is just the slash fix. -/
theorem normalizeL_of_no_md (p : List Char)
    (h : stripSuffixCI ".md".data (p.map slashFix) = none) :
    normalizeL p = p.map slashFix := by
  unfold normalizeL
  rw [h]

/-- A backslash-free base with a locale-suffixed `.md` extension normalizes
as the bare `.md` form does, provided the base carries no locale suffix of
its own. -/
theorem normalizeL_locale (base : List Char)
    (hb : ∀ c ∈ base, c ≠ '\\')
    (hzh : stripSuffixCI ".zh-cn".data base = none)
    (hen : stripSuffixCI ".en-us".data base = none) :
    normalizeL (base ++ ".zh-cn.md".data) = normalizeL (base ++ ".md".data) ∧
    normalizeL (base ++ ".en-us.md".data) = normalizeL (base ++ ".md".data) := by
  have hmd : (base ++ ".md".data).map slashFix = base ++ ".md".data :=
    map_slashFix_id _ (mem_append_no_backslash _ _ hb (by decide))
  have hmd2 : stripSuffixCI ".md".data ((base ++ ".md".data).map slashFix) =
      some base := by
    rw [hmd]
    exact stripSuffixCI_append _ base _ (by decide)
  have hrhs : normalizeL (base ++ ".md".data) =
      stripOpt "/index".data (stripOpt ".$tab-design".data base) := by
    rw [normalizeL_of_md _ _ hmd2, stripLocale_of_none base hzh hen]
  constructor
  · have h1 : (base ++ ".zh-cn.md".data).map slashFix =
        base ++ ".zh-cn.md".data :=
      map_slashFix_id _ (mem_append_no_backslash _ _ hb (by decide))
    have hm : stripSuffixCI ".md".data ((base ++ ".zh-cn.md".data).map slashFix) =
        some (base ++ ".zh-cn".data) := by
      rw [h1, show (".zh-cn.md".data : List Char) = ".zh-cn".data ++ ".md".data
        from by decide, ← List.append_assoc]
      exact stripSuffixCI_append _ _ _ (by decide)
    rw [normalizeL_of_md _ _ hm, stripLocale_zh, hrhs]
  · have h1 : (base ++ ".en-us.md".data).map slashFix =
        base ++ ".en-us.md".data :=
      map_slashFix_id _ (mem_append_no_backslash _ _ hb (by decide))
    have hm : stripSuffixCI ".md".data ((base ++ ".en-us.md".data).map slashFix) =
        some (base ++ ".en-us".data) := by
      rw [h1, show (".en-us.md".data : List Char) = ".en-us".data ++ ".md".data
        from by decide, ← List.append_assoc]
      exact stripSuffixCI_append _ _ _ (by decide)
    rw [normalizeL_of_md _ _ hm, stripLocale_en, hrhs]

/-- A backslash-free directory with an `/index.md` file normalizes as the
flat `.md` form does, provided the directory carries none of the strippable
suffixes itself. -/
theorem normalizeL_index (dir : List Char)
    (hd : ∀ c ∈ dir, c ≠ '\\')
    (hzh : stripSuffixCI ".zh-cn".data dir = none)
    (hen : stripSuffixCI ".en-us".data dir = none)
    (htab : stripSuffixCI ".$tab-design".data dir = none)
    (hidx : stripSuffixCI "/index".data dir = none) :
    normalizeL (dir ++ "/index.md".data) = normalizeL (dir ++ ".md".data) := by
  have h1 : (dir ++ "/index.md".data).map slashFix = dir ++ "/index.md".data :=
    map_slashFix_id _ (mem_append_no_backslash _ _ hd (by decide))
  have hm : stripSuffixCI ".md".data ((dir ++ "/index.md".data).map slashFix) =
      some (dir ++ "/index".data) := by
    rw [h1, show ("/index.md".data : List Char) = "/index".data ++ ".md".data
      from by decide, ← List.append_assoc]
    exact stripSuffixCI_append _ _ _ (by decide)
  have hmd : (dir ++ ".md".data).map slashFix = dir ++ ".md".data :=
    map_slashFix_id _ (mem_append_no_backslash _ _ hd (by decide))
  have hmd2 : stripSuffixCI ".md".data ((dir ++ ".md".data).map slashFix) =
      some dir := by
    rw [hmd]
    exact stripSuffixCI_append _ dir _ (by decide)
  rw [normalizeL_of_md _ _ hm, normalizeL_of_md _ _ hmd2]
  rw [stripLocale_of_none (dir ++ "/index".data)
    (stripSuffixCI_append_none _ dir _ (by decide) (by decide) (by decide))
    (stripSuffixCI_append_none _ dir _ (by decide) (by decide) (by decide))]
  rw [stripOpt_none _ _
    (stripSuffixCI_append_none _ dir _ (by decide) (by decide) (by decide))]
  rw [stripOpt_some _ dir _ (by decide)]
  rw [stripLocale_of_none dir hzh hen, stripOpt_none _ _ htab,
    stripOpt_none _ _ hidx]

/-- `uniq` of three equal strings keeps one. -/
theorem jsUniq_triple (a b c : String) (hab : a = c) (hbc : b = c) :
    jsUniq [a, b, c] = [c] := by
  subst hab
  subst hbc
  simp [jsUniq]

/-- Claim C5: source paths differing only by locale suffix (`.zh-cn.md` /
`.en-us.md` / plain `.md`) or by index-file form (`dir/index.md` vs
`dir.md`) normalize to the same Page Identifier, and the variants collapse
to a single inventory entry under `uniq`.  The hypotheses state that the
shared base/directory is backslash-free and does not itself end in a
strippable suffix — i.e. that the paths really differ only in the stated
way. -/
theorem pageIdentifier_dedup_invariant (base dir : List Char)
    (hb : ∀ c ∈ base, c ≠ '\\')
    (hzh : stripSuffixCI ".zh-cn".data base = none)
    (hen : stripSuffixCI ".en-us".data base = none)
    (hd : ∀ c ∈ dir, c ≠ '\\')
    (hdzh : stripSuffixCI ".zh-cn".data dir = none)
    (hden : stripSuffixCI ".en-us".data dir = none)
    (hdtab : stripSuffixCI ".$tab-design".data dir = none)
    (hdidx : stripSuffixCI "/index".data dir = none) :
    normalizeComponentPath (String.mk (base ++ ".zh-cn.md".data)) =
      normalizeComponentPath (String.mk (base ++ ".md".data)) ∧
    normalizeComponentPath (String.mk (base ++ ".en-us.md".data)) =
      normalizeComponentPath (String.mk (base ++ ".md".data)) ∧
    normalizeComponentPath (String.mk (dir ++ "/index.md".data)) =
      normalizeComponentPath (String.mk (dir ++ ".md".data)) ∧
    jsUniq [normalizeComponentPath (String.mk (base ++ ".zh-cn.md".data)),
            normalizeComponentPath (String.mk (base ++ ".en-us.md".data)),
            normalizeComponentPath (String.mk (base ++ ".md".data))] =
      [normalizeComponentPath (String.mk (base ++ ".md".data))] := by
  obtain ⟨e1, e2⟩ := normalizeL_locale base hb hzh hen
  have c1 : normalizeComponentPath (String.mk (base ++ ".zh-cn.md".data)) =
      normalizeComponentPath (String.mk (base ++ ".md".data)) :=
    congrArg String.mk e1
  have c2 : normalizeComponentPath (String.mk (base ++ ".en-us.md".data)) =
      normalizeComponentPath (String.mk (base ++ ".md".data)) :=
    congrArg String.mk e2
  have c3 : normalizeComponentPath (String.mk (dir ++ "/index.md".data)) =
      normalizeComponentPath (String.mk (dir ++ ".md".data)) :=
    congrArg String.mk (normalizeL_index dir hd hdzh hden hdtab hdidx)
  exact ⟨c1, c2, c3, jsUniq_triple _ _ _ c1 c2⟩

/-- Witness for C5 with base and directory `components/button`: the paths
`components/button.zh-cn.md`, `components/button.en-us.md`,
`components/button.md`, and `components/button/index.md` all collapse. -/
theorem pageIdentifier_dedup_invariant_witness :
    normalizeComponentPath
        (String.mk ("components/button".data ++ ".zh-cn.md".data)) =
      normalizeComponentPath (String.mk ("components/button".data ++ ".md".data)) ∧
    normalizeComponentPath
        (String.mk ("components/button".data ++ ".en-us.md".data)) =
      normalizeComponentPath (String.mk ("components/button".data ++ ".md".data)) ∧
    normalizeComponentPath
        (String.mk ("components/button".data ++ "/index.md".data)) =
      normalizeComponentPath (String.mk ("components/button".data ++ ".md".data)) ∧
    jsUniq [normalizeComponentPath
              (String.mk ("components/button".data ++ ".zh-cn.md".data)),
            normalizeComponentPath
              (String.mk ("components/button".data ++ ".en-us.md".data)),
            normalizeComponentPath
              (String.mk ("components/button".data ++ ".md".data))] =
      [normalizeComponentPath
        (String.mk ("components/button".data ++ ".md".data))] :=
  pageIdentifier_dedup_invariant "components/button".data "components/button".data
    (by decide) (by decide) (by decide) (by decide) (by decide) (by decide)
    (by decide) (by decide)

/-- Successful case-insensitive suffix strips return sublists of the
input. -/
theorem stripSuffixCI_some_subset (pat s r : List Char)
    (h : stripSuffixCI pat s = some r) : ∀ c ∈ r, c ∈ s := by
  unfold stripSuffixCI at h
  split at h
  · cases h
    exact fun c hc => List.mem_of_mem_take hc
  · cases h

/-- `stripOpt` returns a sublist of the input. -/
theorem stripOpt_subset (pat s : List Char) :
    ∀ c ∈ stripOpt pat s, c ∈ s := by
  unfold stripOpt
  cases hs : stripSuffixCI pat s with
  | none => exact fun c hc => hc
  | some r => exact stripSuffixCI_some_subset pat s r hs

/-- `stripLocale` returns a sublist of the input. -/
theorem stripLocale_subset (s : List Char) :
    ∀ c ∈ stripLocale s, c ∈ s := by
  unfold stripLocale
  cases hs : stripSuffixCI ".zh-cn".data s with
  | none => exact stripOpt_subset _ s
  | some r => exact stripSuffixCI_some_subset _ s r hs

/-- Normalized paths contain no backslash (the slash fix ran first and
stripping only removes characters). -/
theorem normalizeL_no_backslash (p : List Char) :
    ∀ c ∈ normalizeL p, c ≠ '\\' := by
  unfold normalizeL
  cases hs : stripSuffixCI ".md".data (p.map slashFix) with
  | none => exact map_slashFix_no_backslash p
  | some q1 =>
    intro c hc
    exact map_slashFix_no_backslash p c
      (stripSuffixCI_some_subset _ _ _ hs c
        (stripLocale_subset q1 c
          (stripOpt_subset _ _ c
            (stripOpt_subset _ _ c hc))))

/-- Counterexample to C6 as stated: `components/button/x.md.md` matches the
component-discovery pattern, yet normalizing its normalized identifier
(`components/button/x.md`) strips a second `.md` and changes it. -/
theorem normalize_idempotent_counterexample :
    matchesComponentGlob "components/button/x.md.md" = true ∧
    normalizeComponentPath (normalizeComponentPath "components/button/x.md.md") ≠
      normalizeComponentPath "components/button/x.md.md" := by
  decide

/-- Claim C6 (amended): the suffix-stripping normalization is idempotent on
every path whose normalized identifier does not itself still end
(case-insensitively) in `.md` — in particular on all single-extension
source paths; a doubled extension such as `x.md.md` is the only way to
violate it. -/
theorem normalize_idempotent_amended (s : String)
    (h : stripSuffixCI ".md".data (normalizeComponentPath s).data = none) :
    normalizeComponentPath (normalizeComponentPath s) =
      normalizeComponentPath s := by
  show String.mk (normalizeL (normalizeL s.data)) = String.mk (normalizeL s.data)
  congr 1
  have hq : (normalizeL s.data).map slashFix = normalizeL s.data :=
    map_slashFix_id _ (normalizeL_no_backslash s.data)
  have h' : stripSuffixCI ".md".data ((normalizeL s.data).map slashFix) = none := by
    rw [hq]
    exact h
  rw [normalizeL_of_no_md _ h', hq]

/-- Witness for C6 (amended) on a real component source path. -/
theorem normalize_idempotent_amended_witness :
    normalizeComponentPath
        (normalizeComponentPath "components/button/index.zh-cn.md") =
      normalizeComponentPath "components/button/index.zh-cn.md" :=
  normalize_idempotent_amended "components/button/index.zh-cn.md" (by decide)

/-- Counterexample to C4 as stated: in the `Basic Pages en` scenario the
title `"hello"` is non-empty, yet the scenario passes without asserting a
match against the expected phrase (the guard also requires the title to
already contain `Ant Design`), while the claimed behaviour would assert
and fail. -/
theorem fixed_scenario_guard_counterexample :
    basicPagesEnScenario 200 "hello" = true ∧
    specHomeTitleCheck 200 "hello" = false ∧
    ("hello" : String) ≠ "" := by
  decide

/-- Claim C4 (amended): the overview/resources scenarios assert the loose
match whenever the heading is non-empty and skip it only when empty; the
two home scenarios guard the title assertion on the title already
containing `Ant Design`, so they reduce to the status check alone. -/
theorem fixed_scenario_text_guards :
    (∀ st t, basicPagesEnScenario st t = (st == 200)) ∧
    (∀ st t, basicPagesZhScenario st t = (st == 200)) ∧
    (∀ st h e, h ≠ "" →
      headingCheck st h e = ((st == 200) && containsStr h e)) ∧
    (∀ st e, headingCheck st "" e = (st == 200)) := by
  refine ⟨?_, ?_, ?_, ?_⟩
  · intro st t
    unfold basicPagesEnScenario homeTitleCheck
    cases hc : containsStr t "Ant Design" <;> simp [hc]
  · intro st t
    unfold basicPagesZhScenario homeTitleCheck
    cases hc : containsStr t "Ant Design" <;> simp [hc]
  · intro st h e hne
    unfold headingCheck
    simp [hne]
  · intro st e
    unfold headingCheck
    simp

/-- Witness for C4 (amended) at concrete inputs. -/
theorem fixed_scenario_text_guards_witness :
    basicPagesEnScenario 200 "whatever" = (200 == 200) ∧
    headingCheck 200 "Overview page" "Overview" =
      ((200 == 200) && containsStr "Overview page" "Overview") ∧
    headingCheck 404 "" "Overview" = (404 == 200) :=
  ⟨fixed_scenario_text_guards.1 200 "whatever",
   fixed_scenario_text_guards.2.2.1 200 "Overview page" "Overview" (by decide),
   fixed_scenario_text_guards.2.2.2 404 "Overview"⟩

/-- Guarded `flatMap` is `flatMap` over the filtered list. -/
theorem flatMap_ite_eq_filter_flatMap {α β : Type} (p : α → Prop)
    [DecidablePred p] (f : α → List β) (l : List α) :
    (l.flatMap fun c => if p c then f c else []) =
      (l.filter fun c => decide (p c)).flatMap f := by
  induction l with
  | nil => rfl
  | cons c cs ih =>
    by_cases h : p c <;> simp [List.flatMap_cons, List.filter_cons, h, ih]

/-- A `flatMap` producing two elements per entry has twice the length. -/
theorem flatMap_pair_length {α β : Type} (f g : α → β) (l : List α) :
    (l.flatMap fun c => [f c, g c]).length = 2 * l.length := by
  induction l with
  | nil => rfl
  | cons c cs ih =>
    simp [List.flatMap_cons, ih]
    omega

/-- Claim C7: the per-component loop generates scenarios exactly for the
inventory entries of `/`-depth below 3 — two each (the `-cn` variant and
the base variant) — and none for deeper entries: the generated list equals
the depth-filtered inventory expanded two scenarios per entry, and its
length is twice the number of qualifying entries. -/
theorem componentScenarios_exactly_shallow (comps : List String) :
    componentScenarios comps =
      (comps.filter (fun c => decide ((splitL '/' c.data).length < 3))).flatMap
        (fun c => [("Component " ++ c ++ " zh Page", c ++ "-cn"),
                   ("Component " ++ c ++ " en Page", c)]) ∧
    (componentScenarios comps).length =
      2 * (comps.filter
        (fun c => decide ((splitL '/' c.data).length < 3))).length := by
  have heq : componentScenarios comps =
      (comps.filter (fun c => decide ((splitL '/' c.data).length < 3))).flatMap
        (fun c => [("Component " ++ c ++ " zh Page", c ++ "-cn"),
                   ("Component " ++ c ++ " en Page", c)]) := by
    unfold componentScenarios
    exact flatMap_ite_eq_filter_flatMap
      (fun c => (splitL '/' c.data).length < 3) _ comps
  refine ⟨heq, ?_⟩
  rw [heq]
  exact flatMap_pair_length _ _ _

/-- Counterexample to C8 as stated: with the browser launched, its close
failing, and the server started (its own close would succeed), the
teardown throws before reaching `server?.close()` and the server is not
released. -/
theorem afterAll_counterexample :
    (TeardownEnv.mk true false true true).serverStarted = true ∧
    (TeardownEnv.mk true false true true).serverCloseOk = true ∧
    (afterAllRun (TeardownEnv.mk true false true true)).1.serverClosed = false ∧
    (afterAllRun (TeardownEnv.mk true false true true)).2 = true := by
  decide

/-- Claim C8 (amended): the teardown closes the browser (when launched) and
then the server; both are released provided the browser close does not
throw (and the server's own close succeeds), but a thrown browser close
aborts the hook and skips the server close. -/
theorem afterAll_release_behaviour :
    (∀ env : TeardownEnv,
      (env.browserLaunched = true → env.browserCloseOk = true) →
      (afterAllRun env).1.browserClosed = env.browserLaunched ∧
      (env.serverStarted = true → env.serverCloseOk = true →
        (afterAllRun env).1.serverClosed = true)) ∧
    (∀ env : TeardownEnv,
      env.browserLaunched = true → env.browserCloseOk = false →
      afterAllRun env = (⟨false, false⟩, true)) := by
  constructor
  · intro env hb
    obtain ⟨bl, bc, ss, sc⟩ := env
    cases bl <;> cases bc <;> cases ss <;> cases sc <;>
      simp_all [afterAllRun]
  · intro env hb hc
    obtain ⟨bl, bc, ss, sc⟩ := env
    cases bl <;> cases bc <;> cases ss <;> cases sc <;>
      simp_all [afterAllRun]

/-- Witness for C8 (amended) at concrete environments. -/
theorem afterAll_release_behaviour_witness :
    ((afterAllRun (TeardownEnv.mk true true true true)).1.browserClosed = true ∧
      ((TeardownEnv.mk true true true true).serverStarted = true →
        (TeardownEnv.mk true true true true).serverCloseOk = true →
        (afterAllRun (TeardownEnv.mk true true true true)).1.serverClosed = true)) ∧
    afterAllRun (TeardownEnv.mk true false false false) = (⟨false, false⟩, true) :=
  ⟨afterAll_release_behaviour.1 (TeardownEnv.mk true true true true)
      (fun _ => rfl),
   afterAll_release_behaviour.2 (TeardownEnv.mk true false false false) rfl rfl⟩

end CheckSite

namespace TestSetup

/-- `Map.get` after `Map.set` on the same key yields exactly the newly
stored value, whatever was there before. -/
theorem mapGet_mapSet_self (k : String) (v : List String) :
    ∀ m : List (String × List String), mapGet k (mapSet k v m) = some v := by
  intro m
  induction m with
  | nil => simp [mapGet, mapSet]
  | cons hd tl ih =>
    obtain ⟨k', v'⟩ := hd
    by_cases h : k' = k <;> simp [mapGet, mapSet, h, ih]

/-- Claim C9: `set(name, value)` followed by `getAll(name)` returns exactly
`[value]`, discarding any previously appended values for that name;
`getAll` on a name never stored returns the empty list, and `get` on such
a name returns `null`. -/
theorem formdata_set_getAll (fd : List (String × List String))
    (name value : String) :
    fdGetAll (fdSet name value fd) name = [value] ∧
    (mapGet name fd = none →
      fdGetAll fd name = [] ∧ fdGet fd name = none) := by
  constructor
  · simp [fdGetAll, fdSet, mapGet_mapSet_self]
  · intro h
    simp [fdGetAll, fdGet, h]

/-- Witness for C9: a map already holding appended values for `"a"`. -/
theorem formdata_set_getAll_witness :
    fdGetAll (fdSet "a" "v" (fdAppend "a" "x" (fdAppend "a" "y" []))) "a" = ["v"] ∧
    (fdGetAll (fdAppend "a" "x" []) "b" = [] ∧
      fdGet (fdAppend "a" "x" []) "b" = none) :=
  ⟨(formdata_set_getAll (fdAppend "a" "x" (fdAppend "a" "y" [])) "a" "v").1,
   (formdata_set_getAll (fdAppend "a" "x" []) "b" "ignored").2 (by decide)⟩

/-- The `reduce` computing `MockFile.size`, related to a map-sum. -/
theorem mockFile_size_foldl (bits : List FileBit) :
    ∀ acc : Nat,
      bits.foldl
        (fun acc b =>
          match b with
          | .str s => acc + s.utf8ByteSize
          | .buf n => acc + n) acc = acc + (bits.map bitSize).sum := by
  induction bits with
  | nil => intro acc; simp
  | cons b bs ih =>
    intro acc
    cases b <;> simp [ih, bitSize] <;> omega

/-- Claim C10: for string bits, `MockFile.text()` returns the concatenation
of the bits in order; and for any mix of string and buffer bits, the
constructor's `size` equals the sum of the UTF-8 byte lengths of the
string bits plus the `byteLength`s of the buffer bits. -/
theorem mockFile_text_and_size (ss : List String) (bits : List FileBit)
    (fn : String) (o : Option String) :
    fileText (mkMockFile (ss.map FileBit.str) fn o) = String.join ss ∧
    (mkMockFile bits fn o).size = (bits.map bitSize).sum := by
  constructor
  · show String.join (((ss.map FileBit.str).map fileBitToString)) = String.join ss
    rw [List.map_map,
      show fileBitToString ∘ FileBit.str = id from funext fun _ => rfl,
      List.map_id]
  · simp [mkMockFile, mockFile_size_foldl]

end TestSetup
